import Mathlib

/-!
Shallow embedding of the temporal-normalization and statistical-derivation
pipeline of `src/test1.py` (load_data, resample_frames, impute_variants,
iqr_clip, rolling_stats, lag_correlation).

Modelling conventions:
* a sensor column of a time-indexed frame is `List (Option ℚ)`; `none` is the
  absent marker (pandas `NaN`), positions correspond to index entries;
* floating-point arithmetic is idealized as exact rational arithmetic;
* a value that the source keeps as `sqrt` of a rational (a standard deviation,
  a Pearson correlation denominator) is carried in exact radicand form so that
  every definition stays computable.
-/

/-- A sensor column: one optional rational per index entry (pandas Series). -/
abbrev Col := List (Option ℚ)

/-- The non-absent values of a column, in index order (pandas `Series.dropna`). -/
def dropna (col : Col) : List ℚ := col.filterMap id

/-- Stable insertion step: `x` is placed before the first element it does not
`le`-dominate; with `le x y` meaning "x may come before y" this keeps equal
elements in input order. -/
def insertB {α : Type} (le : α → α → Bool) (x : α) : List α → List α
  | [] => [x]
  | y :: ys => if le x y then x :: y :: ys else y :: insertB le x ys

/-- Stable insertion sort with respect to the total Boolean relation `le`. -/
def sortBy {α : Type} (le : α → α → Bool) : List α → List α
  | [] => []
  | x :: xs => insertB le x (sortBy le xs)

/-- Ascending sort of rationals (order statistics for quantiles). -/
def sortQ (l : List ℚ) : List ℚ := sortBy (fun a b => decide (a ≤ b)) l

/-- Linearly interpolated quantile of a sample, as pandas
`Series.quantile(p)` computes it (interpolation="linear"): position
`h = p*(n-1)` between the order statistics.  Only used on nonempty samples. -/
def quantile (l : List ℚ) (p : ℚ) : ℚ :=
  let s := sortQ l
  let n := s.length
  let h : ℚ := p * ((n : ℚ) - 1)
  let i : ℕ := (⌊h⌋).toNat
  let g : ℚ := h - (i : ℚ)
  let lo := s.getD i 0
  let hi := s.getD (i + 1) lo
  lo + g * (hi - lo)

/-- Robust bounds of `iqr_clip`: `(Q1 - 1.5*IQR, Q3 + 1.5*IQR)` over the
non-absent values of the column. -/
def iqrBoundsCol (col : Col) : ℚ × ℚ :=
  let s := dropna col
  let q1 := quantile s (1/4)
  let q3 := quantile s (3/4)
  let iqr := q3 - q1
  (q1 - 3/2 * iqr, q3 + 3/2 * iqr)

/-- Outlier flag column of `iqr_clip`: `(daily[c] < lo) | (daily[c] > hi)`;
a NaN compares false on both sides, and a column whose non-absent part is
empty is flagged all-false (the `s.empty` early branch of the source). -/
def iqrFlagsCol (col : Col) : List Bool :=
  if dropna col = [] then col.map (fun _ => false)
  else
    let b := iqrBoundsCol col
    col.map (fun o =>
      match o with
      | none => false
      | some v => decide (v < b.1) || decide (b.2 < v))

/-- Clamp into `[lo, hi]` as pandas `Series.clip(lo, hi)` does. -/
def clampQ (lo hi v : ℚ) : ℚ := min (max v lo) hi

/-- Clipped column of `iqr_clip`: values clamped into the robust bounds,
absent entries left absent, a fully-absent column left unchanged. -/
def iqrClipCol (col : Col) : Col :=
  if dropna col = [] then col
  else
    let b := iqrBoundsCol col
    col.map (Option.map (clampQ b.1 b.2))

/-- Grid-level `iqr_clip`: the flag matrix and the clipped daily grid,
column by column. -/
def iqr_clip (cols : List (String × Col)) :
    List (String × List Bool) × List (String × Col) :=
  (cols.map (fun nc => (nc.1, iqrFlagsCol nc.2)),
   cols.map (fun nc => (nc.1, iqrClipCol nc.2)))

/-- The worked example of the spec: daily values [1,2,3,4,5,100]. -/
def exDaily : Col := [some 1, some 2, some 3, some 4, some 5, some 100]

/-- C1: on the daily values [1,2,3,4,5,100], the interpolated quartiles are
Q1 = 2.25 and Q3 = 4.75, so the robust bounds are [-1.5, 8.5]; 100 is flagged
and clipped to 8.5 while every other value is unflagged and unchanged; in
general a present value is flagged iff it lies strictly outside the bounds,
an absent value is never flagged and stays absent after clipping, and a
fully-absent column is all-unflagged and left unchanged. -/
theorem c1_iqr_outlier_detector :
    (quantile (dropna exDaily) (1/4) = 9/4 ∧
     quantile (dropna exDaily) (3/4) = 19/4 ∧
     iqrBoundsCol exDaily = (-(3/2), 17/2) ∧
     iqrFlagsCol exDaily = [false, false, false, false, false, true] ∧
     iqrClipCol exDaily = [some 1, some 2, some 3, some 4, some 5, some (17/2)]) ∧
    (∀ (col : Col) (i : ℕ) (v : ℚ), dropna col ≠ [] → col[i]? = some (some v) →
      ((iqrFlagsCol col)[i]? = some true ↔
        (v < (iqrBoundsCol col).1 ∨ (iqrBoundsCol col).2 < v))) ∧
    (∀ (col : Col) (i : ℕ), col[i]? = some none →
      (iqrFlagsCol col)[i]? = some false ∧ (iqrClipCol col)[i]? = some none) ∧
    (∀ (col : Col), dropna col = [] →
      (∀ b ∈ iqrFlagsCol col, b = false) ∧ iqrClipCol col = col) := by
  refine ⟨⟨?_, ?_, ?_, ?_, ?_⟩, ?_, ?_, ?_⟩
  · with_unfolding_all decide
  · with_unfolding_all decide
  · with_unfolding_all decide
  · with_unfolding_all decide
  · with_unfolding_all decide
  · intro col i v hne hv
    unfold iqrFlagsCol
    rw [if_neg hne]
    rw [List.getElem?_map, hv]
    simp [decide_eq_true_iff]
  · intro col i hv
    constructor
    · unfold iqrFlagsCol
      by_cases h : dropna col = []
      · rw [if_pos h, List.getElem?_map, hv]; rfl
      · rw [if_neg h, List.getElem?_map, hv]; rfl
    · unfold iqrClipCol
      by_cases h : dropna col = []
      · rw [if_pos h]; exact hv
      · rw [if_neg h, List.getElem?_map, hv]
        rfl
  · intro col h
    constructor
    · unfold iqrFlagsCol
      rw [if_pos h]
      intro b hb
      rcases List.mem_map.mp hb with ⟨o, _, rfl⟩
      rfl
    · unfold iqrClipCol
      rw [if_pos h]

/-- Witness for C1 at concrete inputs: 100 is flagged in the worked example,
an absent entry is unflagged, and a fully-absent column is unchanged. -/
theorem c1_iqr_outlier_detector_witness :
    (iqrFlagsCol exDaily)[5]? = some true ∧
    (iqrFlagsCol [none, some 1])[0]? = some false ∧
    iqrClipCol ([none, none] : Col) = [none, none] := by
  refine ⟨?_, ?_, ?_⟩
  · exact (c1_iqr_outlier_detector.2.1 exDaily 5 100 (by with_unfolding_all decide)
      (by with_unfolding_all decide)).mpr (by with_unfolding_all decide)
  · exact (c1_iqr_outlier_detector.2.2.1 [none, some 1] 0 (by decide)).1
  · exact ((c1_iqr_outlier_detector.2.2.2 [none, none]) (by decide)).2

/-- Forward fill carrying the last known value (pandas `Series.ffill`):
an absent entry takes the nearest earlier known value. -/
def ffillAux (carry : Option ℚ) : Col → Col
  | [] => []
  | none :: xs => carry :: ffillAux carry xs
  | some v :: xs => some v :: ffillAux (some v) xs

/-- Forward fill of a column, starting with no carried value. -/
def ffill (col : Col) : Col := ffillAux none col

/-- First non-absent value of a column, if any. -/
def firstSome (col : Col) : Option ℚ := (dropna col).head?

/-- Backward fill (pandas `Series.bfill`): an absent entry takes the nearest
later known value. -/
def bfill : Col → Col
  | [] => []
  | none :: xs => firstSome xs :: bfill xs
  | some v :: xs => some v :: bfill xs

/-- The `ffill().bfill()` imputation variant on one column. -/
def ffbfCol (col : Col) : Col := bfill (ffill col)

/-- Position-value pairs of the known entries of a column. -/
def knowns (col : Col) : List (ℕ × ℚ) :=
  (List.range col.length).filterMap
    (fun j => (col.getD j none).map (fun v => (j, v)))

/-- Nearest known entry strictly before position `i`. -/
def prevKnown (col : Col) (i : ℕ) : Option (ℕ × ℚ) :=
  ((knowns col).filter (fun p => decide (p.1 < i))).getLast?

/-- Nearest known entry strictly after position `i`. -/
def nextKnown (col : Col) (i : ℕ) : Option (ℕ × ℚ) :=
  ((knowns col).filter (fun p => decide (i < p.1))).head?

/-- One entry of pandas `Series.interpolate(method="time",
limit_direction="both")`: a present value is kept; an absent one is linearly
interpolated in elapsed time between the nearest known neighbours, held
constant when only one side has a known value, and left absent when the
column has no known value at all. -/
def interpAt (ts : List ℚ) (col : Col) (i : ℕ) : Option ℚ :=
  match col.getD i none with
  | some v => some v
  | none =>
    match prevKnown col i, nextKnown col i with
    | some (j1, v1), some (j2, v2) =>
        let t := ts.getD i 0
        let t1 := ts.getD j1 0
        let t2 := ts.getD j2 0
        some (v1 + (v2 - v1) * (t - t1) / (t2 - t1))
    | some (_, v1), none => some v1
    | none, some (_, v2) => some v2
    | none, none => none

/-- Time-aware interpolation of a whole column against its timestamp list. -/
def interpCol (ts : List ℚ) (col : Col) : Col :=
  (List.range col.length).map (interpAt ts col)

/-- A fixed-frequency grid: a timestamp index (in hours) and one named
column per sensor, each aligned with the index by position. -/
structure Grid where
  ts : List ℚ
  cols : List (String × Col)
deriving DecidableEq

/-- The two imputation variants of `impute_variants`, in order
(`ffill_bfill`, `interpolate_time`). -/
def impute_variants (g : Grid) : Grid × Grid :=
  (⟨g.ts, g.cols.map (fun nc => (nc.1, ffbfCol nc.2))⟩,
   ⟨g.ts, g.cols.map (fun nc => (nc.1, interpCol g.ts nc.2))⟩)

theorem ffillAux_some_all (l : Col) : ∀ (v : ℚ), ∀ y ∈ ffillAux (some v) l, y.isSome := by
  induction l with
  | nil => intro v y h; cases h
  | cons x xs ih =>
    intro v y h
    cases x with
    | none =>
      rcases List.mem_cons.mp h with rfl | h
      · rfl
      · exact ih v y h
    | some w =>
      rcases List.mem_cons.mp h with rfl | h
      · rfl
      · exact ih w y h

theorem firstSome_isSome (l : Col) (h : ∃ x ∈ l, x.isSome) : (firstSome l).isSome := by
  induction l with
  | nil => rcases h with ⟨x, hx, _⟩; cases hx
  | cons x xs ih =>
    cases x with
    | none =>
      have hx : ∃ x ∈ xs, x.isSome := by
        rcases h with ⟨y, hy, hs⟩
        rcases List.mem_cons.mp hy with rfl | hy
        · cases hs
        · exact ⟨y, hy, hs⟩
      simpa [firstSome, dropna] using ih hx
    | some w => simp [firstSome, dropna]

theorem ffillAux_exists (l : Col) : ∀ (c : Option ℚ), (∃ x ∈ l, x.isSome) →
    ∃ y ∈ ffillAux c l, y.isSome := by
  induction l with
  | nil => intro c h; rcases h with ⟨x, hx, _⟩; cases hx
  | cons x xs ih =>
    intro c h
    cases x with
    | none =>
      have hx : ∃ x ∈ xs, x.isSome := by
        rcases h with ⟨y, hy, hs⟩
        rcases List.mem_cons.mp hy with rfl | hy
        · cases hs
        · exact ⟨y, hy, hs⟩
      rcases ih c hx with ⟨y, hy, hs⟩
      exact ⟨y, List.mem_cons_of_mem _ hy, hs⟩
    | some w => exact ⟨some w, List.mem_cons_self _ _, rfl⟩

theorem ffbf_key (l : Col) : ∀ (c : Option ℚ), (c.isSome ∨ ∃ x ∈ l, x.isSome) →
    ∀ y ∈ bfill (ffillAux c l), y.isSome := by
  induction l with
  | nil => intro c _ y h; cases h
  | cons x xs ih =>
    intro c hc y hy
    cases x with
    | none =>
      cases c with
      | some v =>
        rcases List.mem_cons.mp hy with rfl | hy
        · rfl
        · exact ih (some v) (Or.inl rfl) y hy
      | none =>
        have hx : ∃ x ∈ xs, x.isSome := by
          rcases hc with hc | ⟨z, hz, hs⟩
          · cases hc
          · rcases List.mem_cons.mp hz with rfl | hz
            · cases hs
            · exact ⟨z, hz, hs⟩
        rcases List.mem_cons.mp hy with rfl | hy
        · exact firstSome_isSome _ (ffillAux_exists xs none hx)
        · exact ih none (Or.inr hx) y hy
    | some w =>
      rcases List.mem_cons.mp hy with rfl | hy
      · rfl
      · exact ih (some w) (Or.inl rfl) y hy

theorem mem_knowns (col : Col) (p : ℕ) (v : ℚ) :
    (p, v) ∈ knowns col ↔ p < col.length ∧ col.getD p none = some v := by
  unfold knowns
  rw [List.mem_filterMap]
  constructor
  · rintro ⟨j, hj, hmap⟩
    rcases Option.map_eq_some'.mp hmap with ⟨a, ha, heq⟩
    obtain ⟨rfl, rfl⟩ : j = p ∧ a = v := by
      exact ⟨congrArg Prod.fst heq, congrArg Prod.snd heq⟩
    exact ⟨List.mem_range.mp hj, ha⟩
  · rintro ⟨hp, hv⟩
    exact ⟨p, List.mem_range.mpr hp, by rw [hv]; rfl⟩

theorem interpAt_isSome (ts : List ℚ) (col : Col) (i : ℕ) (hi : i < col.length)
    (h : ∃ x ∈ col, x.isSome) : (interpAt ts col i).isSome := by
  unfold interpAt
  cases hg : col.getD i none with
  | some v => rfl
  | none =>
    rcases h with ⟨x, hx, hs⟩
    rcases List.mem_iff_getElem.mp hx with ⟨p, hp, rfl⟩
    cases hxv : col[p] with
    | none => rw [hxv] at hs; cases hs
    | some v =>
      have hpv : (p, v) ∈ knowns col :=
        (mem_knowns col p v).mpr ⟨hp, by rw [List.getD_eq_getElem col none hp, hxv]⟩
      have hpi : p ≠ i := by
        intro h'
        subst h'
        rw [List.getD_eq_getElem col none hp, hxv] at hg
        cases hg
      rcases Nat.lt_or_ge p i with hlt | hge
      · have : prevKnown col i ≠ none := by
          unfold prevKnown
          intro hnone
          have hmem : (p, v) ∈ (knowns col).filter (fun q => decide (q.1 < i)) :=
            List.mem_filter.mpr ⟨hpv, by simpa using hlt⟩
          rw [List.getLast?_eq_none_iff.mp hnone] at hmem
          cases hmem
        cases hpk : prevKnown col i with
        | none => exact absurd hpk this
        | some q =>
          cases q with
          | mk j1 v1 =>
            cases hnk : nextKnown col i with
            | none => rfl
            | some r => cases r; rfl
      · have hgt : i < p := Nat.lt_of_le_of_ne hge (fun h' => hpi h'.symm)
        have : nextKnown col i ≠ none := by
          unfold nextKnown
          intro hnone
          have hmem : (p, v) ∈ (knowns col).filter (fun q => decide (i < q.1)) :=
            List.mem_filter.mpr ⟨hpv, by simpa using hgt⟩
          rw [List.head?_eq_none_iff.mp hnone] at hmem
          cases hmem
        cases hnk : nextKnown col i with
        | none => exact absurd hnk this
        | some r =>
          cases r with
          | mk j2 v2 =>
            cases hpk : prevKnown col i with
            | none => rfl
            | some q => cases q; rfl

theorem ffillAux_all_none (l : Col) (h : ∀ x ∈ l, x = none) : ffillAux none l = l := by
  induction l with
  | nil => rfl
  | cons x xs ih =>
    have hx := h x (List.mem_cons_self _ _)
    subst hx
    simp [ffillAux, ih (fun y hy => h y (List.mem_cons_of_mem _ hy))]

theorem dropna_eq_nil (l : Col) (h : ∀ x ∈ l, x = none) : dropna l = [] := by
  unfold dropna
  rw [List.filterMap_eq_nil_iff]
  intro a ha
  rw [h a ha]
  rfl

theorem bfill_all_none (l : Col) (h : ∀ x ∈ l, x = none) : bfill l = l := by
  induction l with
  | nil => rfl
  | cons x xs ih =>
    have hx := h x (List.mem_cons_self _ _)
    subst hx
    have hxs : ∀ x ∈ xs, x = none := fun y hy => h y (List.mem_cons_of_mem _ hy)
    simp [bfill, ih hxs, firstSome, dropna_eq_nil xs hxs]

theorem knowns_all_none (col : Col) (h : ∀ x ∈ col, x = none) : knowns col = [] := by
  unfold knowns
  rw [List.filterMap_eq_nil_iff]
  intro j _
  cases hgd : col.getD j none with
  | none => rfl
  | some v =>
    exfalso
    by_cases hjl : j < col.length
    · rw [List.getD_eq_getElem col none hjl] at hgd
      have := h _ (hgd ▸ List.getElem_mem hjl)
      cases this
    · rw [List.getD_eq_default] at hgd
      · cases hgd
      · exact Nat.le_of_not_lt hjl

theorem interpCol_all_none (ts : List ℚ) (col : Col) (h : ∀ x ∈ col, x = none) :
    interpCol ts col = col := by
  apply List.ext_getElem
  · simp [interpCol]
  · intro n h1 h2
    unfold interpCol
    rw [List.getElem_map, List.getElem_range]
    have hcn : col[n] = none := h _ (List.getElem_mem h2)
    unfold interpAt prevKnown nextKnown
    rw [List.getD_eq_getElem col none h2, hcn, knowns_all_none col h]
    simp [hcn]

/-- C5: both imputation variants keep the timestamp index (and the sensor
name list) of the input grid unchanged; a column with at least one known
value comes out fully populated under both variants; a column with no known
value stays fully absent under both variants. -/
theorem c5_impute_no_absent :
    (∀ g : Grid, (impute_variants g).1.ts = g.ts ∧ (impute_variants g).2.ts = g.ts ∧
      (impute_variants g).1.cols.map Prod.fst = g.cols.map Prod.fst ∧
      (impute_variants g).2.cols.map Prod.fst = g.cols.map Prod.fst) ∧
    (∀ (ts : List ℚ) (col : Col), (∃ x ∈ col, x.isSome) →
      (∀ y ∈ ffbfCol col, y.isSome) ∧ (∀ y ∈ interpCol ts col, y.isSome)) ∧
    (∀ (ts : List ℚ) (col : Col), (∀ x ∈ col, x = none) →
      ffbfCol col = col ∧ interpCol ts col = col) := by
  refine ⟨?_, ?_, ?_⟩
  · intro g
    refine ⟨rfl, rfl, ?_, ?_⟩ <;> simp [impute_variants]
  · intro ts col h
    constructor
    · exact ffbf_key col none (Or.inr h)
    · intro y hy
      rcases List.mem_map.mp hy with ⟨i, hi, rfl⟩
      exact interpAt_isSome ts col i (List.mem_range.mp hi) h
  · intro ts col h
    refine ⟨?_, interpCol_all_none ts col h⟩
    unfold ffbfCol ffill
    rw [ffillAux_all_none col h]
    exact bfill_all_none col h

/-- Witness for C5 at concrete inputs: a column with one known value is
fully populated by both variants, and an all-absent column is unchanged. -/
theorem c5_impute_no_absent_witness :
    (∀ y ∈ ffbfCol [none, some 2, none], y.isSome) ∧
    (∀ y ∈ interpCol [0, 1, 2] [none, some 2, none], y.isSome) ∧
    ffbfCol [none, none] = [none, none] ∧
    interpCol [0, 1] [none, none] = [none, none] := by
  have h1 := c5_impute_no_absent.2.1 [0, 1, 2] [none, some 2, none]
    ⟨some 2, by decide, rfl⟩
  have h2 := c5_impute_no_absent.2.2 [0, 1] [none, none] (by decide)
  exact ⟨h1.1, h1.2, h2.1, h2.2⟩

/-- Indices of the 24-hour backward-looking window at row `i`: rows `j ≤ i`
whose timestamp lies in `(t_i - 24, t_i]` (pandas `rolling("24H")`, window
closed on the right). -/
def winIdx (ts : List ℚ) (i : ℕ) : List ℕ :=
  (List.range (i + 1)).filter (fun j => decide (ts.getD i 0 - 24 < ts.getD j 0))

/-- Non-absent values inside the window at row `i` (the observations
counted by `min_periods`). -/
def winVals (ts : List ℚ) (col : Col) (i : ℕ) : List ℚ :=
  (winIdx ts i).filterMap (fun j => col.getD j none)

/-- Sample variance (divisor n-1) in the computational form
`(n*Sum x^2 - (Sum x)^2) / (n*(n-1))`. -/
def sampleVar (w : List ℚ) : ℚ :=
  ((w.length : ℚ) * (w.map (fun x => x ^ 2)).sum - w.sum ^ 2) /
    ((w.length : ℚ) * ((w.length : ℚ) - 1))

/-- An exact nonnegative square root in radicand form: `Rt.mk q`
stands for the real number `√q`; in particular `Rt.mk 0` is `0`. -/
structure Rt where
  radicand : ℚ
deriving DecidableEq

/-- Rolling mean at row `i`: emitted only when the window holds at least 6
observations (`min_periods=6`). -/
def rollMeanAt (ts : List ℚ) (col : Col) (i : ℕ) : Option ℚ :=
  let w := winVals ts col i
  if 6 ≤ w.length then some (w.sum / (w.length : ℚ)) else none

/-- Rolling sample standard deviation at row `i`, in radicand form, under
the same `min_periods=6` emission rule. -/
def rollStdAt (ts : List ℚ) (col : Col) (i : ℕ) : Option Rt :=
  let w := winVals ts col i
  if 6 ≤ w.length then some ⟨sampleVar w⟩ else none

/-- Grid-level `rolling_stats`: one mean column and one std column per
sensor, suffixed as in the source. -/
def rolling_stats (g : Grid) :
    List (String × List (Option ℚ)) × List (String × List (Option Rt)) :=
  (g.cols.map (fun nc => (nc.1 ++ "_roll24_mean",
      (List.range nc.2.length).map (rollMeanAt g.ts nc.2))),
   g.cols.map (fun nc => (nc.1 ++ "_roll24_std",
      (List.range nc.2.length).map (rollStdAt g.ts nc.2))))

/-- C4: the rolling mean and rolling sample standard deviation are emitted
at a point iff the 24-hour window there holds at least 6 observations, and
absent otherwise; a window of exactly 6 equal values yields standard
deviation √0 = 0. -/
theorem c4_rolling_stats :
    (∀ (ts : List ℚ) (col : Col) (i : ℕ),
      ((rollMeanAt ts col i).isSome ↔ 6 ≤ (winVals ts col i).length) ∧
      ((rollStdAt ts col i).isSome ↔ 6 ≤ (winVals ts col i).length)) ∧
    (∀ (ts : List ℚ) (col : Col) (i : ℕ) (v : ℚ),
      (winVals ts col i).length = 6 → (∀ x ∈ winVals ts col i, x = v) →
      rollStdAt ts col i = some ⟨0⟩) := by
  constructor
  · intro ts col i
    constructor
    · unfold rollMeanAt
      by_cases h : 6 ≤ (winVals ts col i).length
      · simp [h]
      · simp [h]
    · unfold rollStdAt
      by_cases h : 6 ≤ (winVals ts col i).length
      · simp [h]
      · simp [h]
  · intro ts col i v hlen hall
    have hw : winVals ts col i = List.replicate 6 v :=
      List.eq_replicate_iff.mpr ⟨hlen, hall⟩
    unfold rollStdAt
    rw [hw]
    rw [if_pos (by simp)]
    have : sampleVar (List.replicate 6 v) = 0 := by
      unfold sampleVar
      rw [div_eq_zero_iff]
      left
      simp [List.sum_replicate, List.map_replicate, nsmul_eq_mul]
      ring
    rw [this]

/-- Witness for C4: six equal hourly values give std 0 at the sixth row,
the mean is emitted there, and at the fifth row (5 observations) both
statistics are absent. -/
theorem c4_rolling_stats_witness :
    rollStdAt [0, 1, 2, 3, 4, 5] (List.replicate 6 (some 5)) 5 = some ⟨0⟩ ∧
    (rollMeanAt [0, 1, 2, 3, 4, 5] (List.replicate 6 (some 5)) 5).isSome = true ∧
    rollMeanAt [0, 1, 2, 3, 4, 5] (List.replicate 6 (some 5)) 4 = none := by
  refine ⟨?_, ?_, ?_⟩
  · exact c4_rolling_stats.2 [0, 1, 2, 3, 4, 5] (List.replicate 6 (some 5)) 5 5
      (by with_unfolding_all decide) (by with_unfolding_all decide)
  · exact ((c4_rolling_stats.1 [0, 1, 2, 3, 4, 5] (List.replicate 6 (some 5)) 5).1).mpr
      (by with_unfolding_all decide)
  · exact Option.not_isSome_iff_eq_none.mp (fun hs =>
      absurd (((c4_rolling_stats.1 [0, 1, 2, 3, 4, 5] (List.replicate 6 (some 5)) 4).1).mp hs)
        (by with_unfolding_all decide))

/-- Arithmetic mean of a bucket's non-absent values; a bucket with no
observation stays absent. -/
def meanOpt (l : List ℚ) : Option ℚ :=
  if l = [] then none else some (l.sum / (l.length : ℚ))

/-- Values of column `c` whose timestamp falls in the 1-hour bucket starting
at hour `b` (bucket boundary = floor of the timestamp to the hour). -/
def bucketVals (ts : List ℚ) (c : Col) (b : ℤ) : List ℚ :=
  ((List.range ts.length).filter
    (fun i => decide (⌊ts.getD i 0⌋ = b))).filterMap (fun i => c.getD i none)

/-- Hourly resample-by-mean (`df.resample("1H").mean()`): one row per hour
from the first to the last bucket of the index span, each sensor averaged
over the non-absent values of the bucket. -/
def resampleH (g : Grid) : Grid :=
  match g.ts.min?, g.ts.max? with
  | some tmin, some tmax =>
    let b0 : ℤ := ⌊tmin⌋
    let nb : ℕ := (⌊tmax⌋ - b0 + 1).toNat
    ⟨(List.range nb).map (fun (k : ℕ) => ((b0 + (k : ℤ) : ℤ) : ℚ)),
     g.cols.map (fun nc => (nc.1,
       (List.range nb).map (fun (k : ℕ) => meanOpt (bucketVals g.ts nc.2 (b0 + (k : ℤ))))))⟩
  | _, _ => ⟨[], g.cols.map (fun nc => (nc.1, []))⟩

/-- Values of column `c` whose timestamp (in hours) falls in the 1-day
bucket starting at day `b`. -/
def dayBucketVals (ts : List ℚ) (c : Col) (b : ℤ) : List ℚ :=
  ((List.range ts.length).filter
    (fun i => decide (⌊ts.getD i 0 / 24⌋ = b))).filterMap (fun i => c.getD i none)

/-- Daily resample-by-mean of the hourly grid (`hourly.resample("1D").mean()`),
with the output index at day starts expressed in hours. -/
def resampleD (g : Grid) : Grid :=
  match g.ts.min?, g.ts.max? with
  | some tmin, some tmax =>
    let b0 : ℤ := ⌊tmin / 24⌋
    let nb : ℕ := (⌊tmax / 24⌋ - b0 + 1).toNat
    ⟨(List.range nb).map (fun (k : ℕ) => (((b0 + (k : ℤ) : ℤ) : ℚ) * 24)),
     g.cols.map (fun nc => (nc.1,
       (List.range nb).map (fun (k : ℕ) => meanOpt (dayBucketVals g.ts nc.2 (b0 + (k : ℤ))))))⟩
  | _, _ => ⟨[], g.cols.map (fun nc => (nc.1, []))⟩

/-- The `resample_frames` stage: the hourly grid, then the daily grid
derived from it. -/
def resample_frames (g : Grid) : Grid × Grid :=
  let hourly := resampleH g
  (hourly, resampleD hourly)

theorem range_filter_eq_single (n k : ℕ) (hk : k < n) :
    (List.range n).filter (fun i => decide (i = k)) = [k] := by
  induction n with
  | zero => omega
  | succ m ih =>
    rw [List.range_succ, List.filter_append]
    rcases Nat.lt_or_ge k m with h | h
    · rw [ih h]
      have : m ≠ k := by omega
      simp [this]
    · have hkm : k = m := by omega
      subst hkm
      have : ∀ i ∈ List.range k, ¬(i = k) := by
        intro i hi
        have := List.mem_range.mp hi
        omega
      rw [List.filter_eq_nil_iff.mpr (by intro i hi; simpa using this i hi)]
      simp

theorem c9_col_roundtrip (n : ℕ) (h0 : ℤ) (ts : List ℚ) (cl : Col)
    (hts : ts = (List.range (n + 1)).map (fun (k : ℕ) => ((h0 + (k : ℤ) : ℤ) : ℚ)))
    (hc : cl.length = n + 1) :
    (List.range (n + 1)).map
      (fun (k : ℕ) => meanOpt (bucketVals ts cl (h0 + (k : ℤ)))) = cl := by
  have htslen : ts.length = n + 1 := by rw [hts]; simp
  have htsget : ∀ i, i < n + 1 → ts.getD i 0 = ((h0 + (i : ℤ) : ℤ) : ℚ) := by
    intro i hi
    rw [hts, List.getD_eq_getElem _ 0 (by simpa using hi), List.getElem_map,
      List.getElem_range]
  have hbucket : ∀ k, k < n + 1 →
      bucketVals ts cl (h0 + (k : ℤ)) = (cl.getD k none).toList := by
    intro k hk
    unfold bucketVals
    rw [htslen]
    have hfc : (List.range (n + 1)).filter
        (fun i => decide (⌊ts.getD i 0⌋ = h0 + (k : ℤ))) =
        (List.range (n + 1)).filter (fun i => decide (i = k)) := by
      apply List.filter_congr
      intro i hi
      have hi' := List.mem_range.mp hi
      rw [htsget i hi', Int.floor_intCast]
      apply decide_eq_decide.mpr
      omega
    rw [hfc, range_filter_eq_single _ k hk]
    cases hck : List.getD cl k none with
    | none =>
      rw [List.getD_eq_getElem?_getD] at hck
      simp [List.filterMap_cons, hck]
    | some v =>
      rw [List.getD_eq_getElem?_getD] at hck
      simp [List.filterMap_cons, hck]
  apply List.ext_getElem
  · simpa using hc.symm
  · intro k h1 h2
    have hk : k < n + 1 := by simpa using h1
    rw [List.getElem_map, List.getElem_range, hbucket k hk,
      List.getD_eq_getElem cl none (by omega)]
    have hget : cl.get ⟨k, h2⟩ = cl[k] := rfl
    rw [← hget]
    cases hck : (cl.get ⟨k, h2⟩) with
    | none => simp [meanOpt]
    | some v => simp [meanOpt]

/-- C9: resampling a grid that is already on a contiguous hourly frequency,
with timestamps exactly on hour boundaries, by `resample("1H").mean()` is a
no-op: the same grid comes back with all values unchanged. -/
theorem c9_resample_hourly_noop (n : ℕ) (h0 : ℤ) (g : Grid)
    (hts : g.ts = (List.range (n + 1)).map (fun (k : ℕ) => ((h0 + (k : ℤ) : ℤ) : ℚ)))
    (hlen : ∀ nc ∈ g.cols, (nc.2 : Col).length = g.ts.length) :
    resampleH g = g := by
  obtain ⟨ts, cols⟩ := g
  simp only at hts hlen ⊢
  have htslen : ts.length = n + 1 := by rw [hts]; simp
  haveI hanti : Std.Antisymm ((· : ℚ) ≤ ·) := ⟨fun h1 h2 => le_antisymm h1 h2⟩
  have hmin : ts.min? = some ((h0 : ℤ) : ℚ) := by
    apply (List.min?_eq_some_iff (fun a => le_refl a) (fun a b => min_choice a b)
      (fun a b cc => le_min_iff)).mpr
    constructor
    · rw [hts]
      exact List.mem_map.mpr ⟨0, List.mem_range.mpr (Nat.succ_pos n), by simp⟩
    · intro b hb
      rw [hts] at hb
      rcases List.mem_map.mp hb with ⟨k, _, rfl⟩
      have hk : h0 ≤ h0 + (k : ℤ) := by omega
      exact_mod_cast hk
  have hmax : ts.max? = some ((h0 + (n : ℤ) : ℤ) : ℚ) := by
    apply (List.max?_eq_some_iff (fun a => le_refl a) (fun a b => max_choice a b)
      (fun a b cc => max_le_iff)).mpr
    constructor
    · rw [hts]
      exact List.mem_map.mpr ⟨n, List.mem_range.mpr (Nat.lt_succ_self n), rfl⟩
    · intro b hb
      rw [hts] at hb
      rcases List.mem_map.mp hb with ⟨k, hk, rfl⟩
      have hk' : (k : ℤ) ≤ (n : ℤ) := by
        have := List.mem_range.mp hk
        omega
      have : h0 + (k : ℤ) ≤ h0 + (n : ℤ) := by omega
      exact_mod_cast this
  unfold resampleH
  rw [hmin, hmax]
  dsimp only
  simp only [Int.floor_intCast]
  have hnb : (h0 + (n : ℤ) - h0 + 1).toNat = n + 1 := by omega
  rw [hnb]
  rw [Grid.mk.injEq]
  constructor
  · exact hts.symm
  · have hcols : ∀ nc ∈ cols, (nc.1,
        (List.range (n + 1)).map
          (fun (k : ℕ) => meanOpt (bucketVals ts nc.2 (h0 + (k : ℤ))))) = nc := by
      intro nc hnc
      cases nc with
      | mk name cv =>
        have hcv : cv.length = n + 1 := by
          have := hlen (name, cv) hnc
          rw [htslen] at this
          exact this
        rw [c9_col_roundtrip n h0 ts cv hts hcv]
    calc cols.map (fun nc => (nc.1,
          (List.range (n + 1)).map
            (fun (k : ℕ) => meanOpt (bucketVals ts nc.2 (h0 + (k : ℤ)))))) =
        cols.map id := List.map_congr_left hcols
      _ = cols := List.map_id cols

/-- Witness for C9: a concrete two-hour grid resamples to itself. -/
theorem c9_resample_hourly_noop_witness :
    resampleH ⟨[0, 1], [("a", [some 1, none])]⟩ = ⟨[0, 1], [("a", [some 1, none])]⟩ := by
  exact c9_resample_hourly_noop 1 0 ⟨[0, 1], [("a", [some 1, none])]⟩
    (by with_unfolding_all decide) (by with_unfolding_all decide)

/-- Lowercase a column name character by character (Python `str.lower`,
ASCII names). -/
def lowerStr (s : String) : String := String.mk (s.data.map Char.toLower)

/-- `startsWithB p l` holds when `p` is an initial segment of `l`. -/
def startsWithB : List Char → List Char → Bool
  | [], _ => true
  | _ :: _, [] => false
  | a :: ps, b :: ls => decide (a = b) && startsWithB ps ls

/-- `containsSub l p` holds when `p` occurs contiguously inside `l`
(Python `in` on strings). -/
def containsSub : List Char → List Char → Bool
  | [], p => startsWithB p []
  | l@(_ :: ls), p => startsWithB p l || containsSub ls p

/-- The date-column test of `load_data`, one single pass per column:
lowercased name equals one of the aliases, OR contains "date", OR contains
"time". -/
def isDtName (c : String) : Bool :=
  let lc := lowerStr c
  decide (lc = "datetime") || decide (lc = "date") || decide (lc = "time") ||
    decide (lc = "timestamp") || containsSub lc.data "date".data ||
    containsSub lc.data "time".data

/-- The for-break loop of `load_data`: the first column name (in column
order) satisfying `isDtName`. -/
def findDtCol : List String → Option String
  | [] => none
  | c :: rest => if isDtName c then some c else findDtCol rest

/-- Modelled from the spec of claim C6 (priority rule): an exact
case-insensitive alias match is preferred over a mere substring match on
"date"/"time"; only if no exact alias match exists is the first
substring-matching column selected. -/
def specDtCol (names : List String) : Option String :=
  match names.find? (fun c => decide (lowerStr c = "datetime") ||
      decide (lowerStr c = "date") || decide (lowerStr c = "time") ||
      decide (lowerStr c = "timestamp")) with
  | some c => some c
  | none => names.find? (fun c => containsSub (lowerStr c).data "date".data ||
      containsSub (lowerStr c).data "time".data)

/-- Counterexample to C6: with columns ["creation_time", "timestamp"] the
code picks "creation_time" (first single-pass match), while the claimed
priority rule would pick the exact alias "timestamp". -/
theorem c6_counterexample :
    findDtCol ["creation_time", "timestamp"] = some "creation_time" ∧
    specDtCol ["creation_time", "timestamp"] = some "timestamp" ∧
    findDtCol ["creation_time", "timestamp"] ≠
      specDtCol ["creation_time", "timestamp"] := by
  refine ⟨?_, ?_, ?_⟩ <;> decide

/-- C6 as amended: the selection is one single pass in column order; the
first column whose lowercased name equals an alias or contains "date" or
"time" is selected, with no priority for exact alias matches. -/
theorem c6_dt_column_single_pass :
    ∀ names : List String, findDtCol names = names.find? (fun c => isDtName c) := by
  intro names
  induction names with
  | nil => rfl
  | cons c rest ih =>
    unfold findDtCol
    rw [List.find?_cons]
    cases h : isDtName c with
    | true => simp [h]
    | false => simp [h, ih]

/-- A raw CSV cell: a number, a string, or a missing value. -/
inductive Cell where
  | num (v : ℚ)
  | str (s : String)
  | na
deriving DecidableEq

/-- A raw input table: named columns of cells, as `pd.read_csv` delivers. -/
structure RawTable where
  cols : List (String × List Cell)
deriving DecidableEq

/-- Names of the raw columns, in column order. -/
def colNames (t : RawTable) : List String := t.cols.map Prod.fst

/-- Numeric dtype test: every cell a number or missing (`read_csv` type
inference, as consumed by `select_dtypes(include="number")`). -/
def numericColB (cells : List Cell) : Bool :=
  cells.all (fun c =>
    match c with
    | .num _ => true
    | .na => true
    | .str _ => false)

/-- Datetime parse of one cell (`pd.to_datetime(..., errors="coerce")`),
against an external string-to-timestamp parser `parse`: numbers parse as
epochs, strings through `parse`, missing cells stay missing. -/
def cellTime (parse : String → Option ℚ) : Cell → Option ℚ
  | .num v => some v
  | .str s => parse s
  | .na => none

/-- Numeric value of a cell of a numeric column; strings (impossible there)
and missing cells give the absent marker. -/
def cellNum : Cell → Option ℚ
  | .num v => some v
  | .str _ => none
  | .na => none

/-- The numeric measurement columns that remain after the date column at
index `i` is moved to the index. -/
def valueCols (t : RawTable) (i : ℕ) : List (String × List Cell) :=
  (t.cols.eraseIdx i).filter (fun nc => numericColB nc.2)

/-- Deduplication by timestamp keeping the first occurrence
(`drop_duplicates` after the stable sort). -/
def dedupAux (seen : List ℚ) : List (ℚ × List (Option ℚ)) → List (ℚ × List (Option ℚ))
  | [] => []
  | r :: rs =>
    if seen.contains r.1 then dedupAux seen rs
    else r :: dedupAux (r.1 :: seen) rs

/-- The `load_data` stage: find the date column by name, fail if none;
parse its cells, drop rows whose timestamp does not parse, sort by
timestamp, deduplicate keeping the first; keep only numeric measurement
columns, fail if none remain. -/
def load_data (parse : String → Option ℚ) (t : RawTable) : Except String Grid :=
  match (colNames t).findIdx? isDtName with
  | none => .error "no datetime-like column found"
  | some i =>
    let dtCells := (t.cols.getD i ("", [])).2
    let vcols := valueCols t i
    if vcols = [] then .error "no numeric columns found"
    else
      let rows := (List.range dtCells.length).filterMap (fun r =>
        (cellTime parse (dtCells.getD r .na)).map (fun tm =>
          (tm, vcols.map (fun nc => cellNum (nc.2.getD r .na)))))
      let dedup := dedupAux [] (sortBy (fun a b => decide (a.1 ≤ b.1)) rows)
      .ok ⟨dedup.map Prod.fst,
        (List.range vcols.length).map (fun j =>
          ((vcols.getD j ("", [])).1, dedup.map (fun r => r.2.getD j none)))⟩

/-- The pipeline prefix: load, then resample, then impute; a structural
error in loading short-circuits every later stage. -/
def pipelineRun (parse : String → Option ℚ) (t : RawTable) :
    Except String (Grid × Grid × (Grid × Grid)) :=
  (load_data parse t).map (fun df =>
    let hd := resample_frames df
    (hd.1, hd.2, impute_variants hd.1))

/-- C7: loading fails (with a structural error and no output grid) exactly
when no date/time column is identified or no numeric measurement column
remains after indexing, and such a failure short-circuits the whole
pipeline before any downstream stage runs. -/
theorem c7_load_structural_errors :
    ∀ (parse : String → Option ℚ) (t : RawTable),
      ((∃ e, load_data parse t = .error e) ↔
        ((colNames t).findIdx? isDtName = none ∨
         ∃ i, (colNames t).findIdx? isDtName = some i ∧ valueCols t i = [])) ∧
      (∀ e, load_data parse t = .error e → pipelineRun parse t = .error e) := by
  intro parse t
  constructor
  · unfold load_data
    cases hidx : (colNames t).findIdx? isDtName with
    | none =>
      simp only []
      constructor
      · intro _
        left
        simp
      · intro _
        exact ⟨"no datetime-like column found", rfl⟩
    | some i =>
      simp only []
      by_cases hv : valueCols t i = []
      · rw [if_pos hv]
        constructor
        · intro _
          exact Or.inr ⟨i, rfl, hv⟩
        · intro _
          exact ⟨"no numeric columns found", rfl⟩
      · rw [if_neg hv]
        constructor
        · rintro ⟨e, he⟩
          cases he
        · rintro (h | ⟨j, hj, hvj⟩)
          · cases h
          · obtain rfl : i = j := by
              have := hj
              simp at this
              exact this
            exact absurd hvj hv
  · intro e he
    unfold pipelineRun
    rw [he]
    rfl

/-- Witness for C7: a table with no date-like column fails, a table whose
only other column is non-numeric fails, and the failure propagates through
the pipeline unchanged. -/
theorem c7_load_structural_errors_witness :
    (∃ e, load_data (fun _ => none) ⟨[("a", [Cell.num 1])]⟩ = .error e) ∧
    (∃ e, load_data (fun _ => none)
      ⟨[("date", [Cell.str "x"]), ("b", [Cell.str "y"])]⟩ = .error e) ∧
    pipelineRun (fun _ => none) ⟨[("a", [Cell.num 1])]⟩ =
      .error "no datetime-like column found" := by
  refine ⟨?_, ?_, ?_⟩
  · exact ((c7_load_structural_errors (fun _ => none) ⟨[("a", [Cell.num 1])]⟩).1).mpr
      (Or.inl (by decide))
  · exact ((c7_load_structural_errors (fun _ => none)
      ⟨[("date", [Cell.str "x"]), ("b", [Cell.str "y"])]⟩).1).mpr
      (Or.inr ⟨0, by decide, by decide⟩)
  · exact (c7_load_structural_errors (fun _ => none) ⟨[("a", [Cell.num 1])]⟩).2
      "no datetime-like column found" (by with_unfolding_all rfl)

/-- Overlapping value pairs of columns `a` and `b` after shifting `b`
forward by `lag` steps (a negative lag shifts `a` forward by `|lag|`
instead), keeping only positions where both values are present — the
sample on which `Series.corr` operates. -/
def lagPairs (a b : Col) (lag : ℤ) : List (ℚ × ℚ) :=
  let zipped := if 0 ≤ lag then (a.drop lag.toNat).zip b else a.zip (b.drop (-lag).toNat)
  zipped.filterMap (fun p =>
    match p with
    | (some x, some y) => some (x, y)
    | _ => none)

/-- A Pearson correlation in exact form: `nan` when undefined, otherwise
`val c d` standing for the real number `c / √d` with `d > 0`. -/
inductive Corr where
  | nan
  | val (c d : ℚ)
deriving DecidableEq

/-- Pearson correlation of a paired sample (`Series.corr`): with
`sxy = n·Σxy − Σx·Σy` and `sxx`, `syy` alike, the value is
`sxy / √(sxx·syy)`; it is NaN unless both variances are positive (which
also forces a sample of at least 2 points). -/
def pearson (ps : List (ℚ × ℚ)) : Corr :=
  let n : ℚ := ps.length
  let sx := (ps.map Prod.fst).sum
  let sy := (ps.map Prod.snd).sum
  let sxx := n * (ps.map (fun p => p.1 ^ 2)).sum - sx ^ 2
  let syy := n * (ps.map (fun p => p.2 ^ 2)).sum - sy ^ 2
  let sxy := n * (ps.map (fun p => p.1 * p.2)).sum - sx * sy
  if 0 < sxx ∧ 0 < syy then Corr.val sxy (sxx * syy) else Corr.nan

/-- Exact decision of `c1/√d1 > c2/√d2` for positive `d1`, `d2`, by sign
analysis and cross-squaring. -/
def cddGt (c1 d1 c2 d2 : ℚ) : Bool :=
  if 0 ≤ c1 then decide (c2 < 0) || decide (c2 ^ 2 * d1 < c1 ^ 2 * d2)
  else decide (c2 < 0) && decide (c1 ^ 2 * d2 < c2 ^ 2 * d1)

/-- The running best of the per-pair search: `ninf` is the initial
`-np.inf`, `val c d` a recorded exact correlation `c / √d`. -/
inductive Score where
  | ninf
  | val (c d : ℚ)
deriving DecidableEq

/-- The update test `corr > best[1]`: a defined correlation beats `-inf`,
two defined values compare exactly. -/
def scoreLt (s : Score) (c d : ℚ) : Bool :=
  match s with
  | .ninf => true
  | .val c' d' => cddGt c d c' d'

/-- The lag enumeration `range(-max_lag, max_lag + 1)`. -/
def lagList (L : ℕ) : List ℤ :=
  (List.range (2 * L + 1)).map (fun (k : ℕ) => (k : ℤ) - (L : ℤ))

/-- One step of the per-pair fold: a defined and strictly greater
correlation replaces the current best, anything else leaves it. -/
def bestStep (a b : Col) (best : Option ℤ × Score) (lag : ℤ) : Option ℤ × Score :=
  match pearson (lagPairs a b lag) with
  | .nan => best
  | .val c d => if scoreLt best.2 c d then (some lag, .val c d) else best

/-- The per-pair lag search over `[-L, L]`, starting from `(None, -inf)`. -/
def bestForPair (a b : Col) (L : ℕ) : Option ℤ × Score :=
  (lagList L).foldl (bestStep a b) (none, .ninf)

/-- A recorded correlation after rounding: `-inf` (pair with no defined
lag), an exact rational, or NaN — the latter is never actually produced by
the search but is the value the spec narrative names. -/
inductive RScore where
  | nan
  | ninf
  | q (x : ℚ)
deriving DecidableEq

/-- Newton iteration for the integer square root with a structural fuel
bound: each step replaces the guess `g` by `(g + n/g)/2` and stops at the
first non-decreasing step, which is exactly `⌊√n⌋`. -/
def newtonIter : ℕ → ℕ → ℕ → ℕ
  | 0, _, g => g
  | f + 1, n, g =>
    let nx := (g + n / g) / 2
    if nx < g then newtonIter f n nx else g

/-- Integer square root `⌊√n⌋`: guarded Newton from `n/2`; 256 steps of
fuel cover every `n < 2^256` (all numbers arising here are far below), and
the iteration stops as soon as it converges. -/
def isqrt (n : ℕ) : ℕ := if n ≤ 1 then n else newtonIter 256 n (n / 2)

/-- Floor of `P·√M / D` for an integer `P`, natural radicand `M` and
positive natural divisor `D`. -/
def sqrtFloorDiv (P : ℤ) (M : ℕ) (D : ℕ) : ℤ :=
  if 0 ≤ P then ((isqrt (P.natAbs ^ 2 * M)) / D : ℕ)
  else
    let s := isqrt (P.natAbs ^ 2 * M)
    if s * s = P.natAbs ^ 2 * M then -(((s + D - 1) / D : ℕ) : ℤ)
    else -(((s / D : ℕ) : ℤ) + 1)

/-- Decision of `P·√M < R` over the integers. -/
def sqrtCmpLt (P : ℤ) (M : ℕ) (R : ℤ) : Bool :=
  if 0 ≤ P ∨ M = 0 then decide (0 < R) && decide (P ^ 2 * (M : ℤ) < R ^ 2)
  else decide (0 ≤ R) || decide (R ^ 2 < P ^ 2 * (M : ℤ))

/-- Decision of `R < P·√M` over the integers. -/
def sqrtCmpGt (P : ℤ) (M : ℕ) (R : ℤ) : Bool :=
  if 0 ≤ P ∨ M = 0 then decide (R < 0) || decide (R ^ 2 < P ^ 2 * (M : ℤ))
  else decide (R < 0) && decide (P ^ 2 * (M : ℤ) < R ^ 2)

/-- Python `round(x, 4)` idealized to exact arithmetic: half-to-even
rounding of the real number `c/√d` at the fourth decimal digit, computed
on the radicand representation.  Writing `10000·c = p/q` and `d = u/v` in
lowest terms, the value to round is `p·√(u·v) / (q·u)`. -/
def round4 (c d : ℚ) : ℚ :=
  let cq : ℚ := 10000 * c
  let P : ℤ := cq.num
  let M : ℕ := d.num.toNat * d.den
  let D : ℕ := cq.den * d.num.toNat
  let f : ℤ := sqrtFloorDiv P M D
  let R : ℤ := (2 * f + 1) * (D : ℤ)
  let k : ℤ :=
    if sqrtCmpGt (2 * P) M R then f + 1
    else if sqrtCmpLt (2 * P) M R then f
    else if f % 2 = 0 then f else f + 1
  (k : ℚ) / 10000

/-- Round the recorded best score to 4 decimal digits
(`round(best[1], 4)`; note `round(-inf, 4) = -inf`). -/
def roundScore : Score → RScore
  | .ninf => .ninf
  | .val c d => .q (round4 c d)

/-- One row of the lag-correlation result table. -/
structure LagRow where
  pair : String
  best_lag_h : Option ℤ
  corr : RScore
deriving DecidableEq

/-- The result row for the sensor pair at positions `i < j`. -/
def mkRow (cols : List (String × Col)) (L : ℕ) (i j : ℕ) : LagRow :=
  let a := (cols.getD i ("", [])).2
  let b := (cols.getD j ("", [])).2
  let best := bestForPair a b L
  ⟨(cols.getD i ("", [])).1 ++ "~" ++ (cols.getD j ("", [])).1,
   best.1, roundScore best.2⟩

/-- The pre-sort result list, in pair-enumeration order
(`i` increasing, then `j` increasing). -/
def lagRows (cols : List (String × Col)) (L : ℕ) : List LagRow :=
  (List.range cols.length).flatMap (fun i =>
    ((List.range cols.length).drop (i + 1)).map (fun j => mkRow cols L i j))

/-- Descending order on rounded scores: `rgeB r s` holds when a row scoring
`r` may come before a row scoring `s`; NaN rows are not compared here (the
sort separates them first, as `na_position="last"` does). -/
def rgeB (r s : RScore) : Bool :=
  match r, s with
  | .q x, .q y => decide (y ≤ x)
  | .q _, .ninf => true
  | .ninf, .q _ => false
  | .ninf, .ninf => true
  | .nan, .nan => true
  | .nan, _ => false
  | _, .nan => true

deriving instance DecidableEq for Except

/-- The final `sort_values("corr", ascending=False)`: on an empty result
list the source's `pd.DataFrame([])` has no `corr` column at all and
`sort_values` raises `KeyError: corr`; on a nonempty result NaN rows go
last and the rest descend by score, with ties modelled in enumeration
order by a stable sort (the source delegates to numpy's default quicksort,
whose tie order is not guaranteed — see the C2 analysis). -/
def sortRows (rows : List LagRow) : Except String (List LagRow) :=
  if rows = [] then .error "KeyError: corr"
  else .ok (sortBy (fun r s => rgeB r.corr s.corr)
      (rows.filter (fun r => !(decide (r.corr = RScore.nan)))) ++
    rows.filter (fun r => decide (r.corr = RScore.nan)))

/-- The `lag_correlation` stage on the named columns of an imputed grid;
with fewer than two sensors the pair list is empty and the final sort
raises instead of returning a table. -/
def lag_correlation (cols : List (String × Col)) (L : ℕ) :
    Except String (List LagRow) :=
  sortRows (lagRows cols L)

/-- C3 evaluated on the code: on a grid with exactly one sensor column the
pair enumeration is empty, and the final
`pd.DataFrame([]).sort_values("corr", ascending=False)` raises
`KeyError: corr` — the lag correlator fails instead of returning the empty
pair list the claim describes. -/
theorem c3_single_sensor_keyerror :
    ∀ (cols : List (String × Col)) (L : ℕ), cols.length = 1 →
      lag_correlation cols L = .error "KeyError: corr" := by
  intro cols L h
  obtain ⟨c, rfl⟩ := List.length_eq_one.mp h
  rfl

/-- Witness for C3 at a concrete one-sensor grid with the default lag 24. -/
theorem c3_single_sensor_keyerror_witness :
    lag_correlation [("a", [some 1, some 2])] 24 = .error "KeyError: corr" :=
  c3_single_sensor_keyerror [("a", [some 1, some 2])] 24 rfl

theorem foldl_bestStep_all_nan (a b : Col) :
    ∀ (lags : List ℤ) (st : Option ℤ × Score),
      (∀ lag ∈ lags, pearson (lagPairs a b lag) = Corr.nan) →
      lags.foldl (bestStep a b) st = st := by
  intro lags
  induction lags with
  | nil => intro st _; rfl
  | cons x xs ih =>
    intro st h
    rw [List.foldl_cons]
    have hx : bestStep a b st x = st := by
      unfold bestStep
      rw [h x (List.mem_cons_self _ _)]
    rw [hx]
    exact ih st (fun lag hl => h lag (List.mem_cons_of_mem _ hl))

theorem mem_insertB {α : Type} (le : α → α → Bool) (x : α) :
    ∀ (l : List α) (z : α), z ∈ insertB le x l ↔ z = x ∨ z ∈ l := by
  intro l
  induction l with
  | nil => intro z; simp [insertB]
  | cons y ys ih =>
    intro z
    unfold insertB
    by_cases h : le x y = true
    · rw [if_pos h]
      simp [List.mem_cons]
    · rw [if_neg h]
      rw [List.mem_cons, List.mem_cons, ih z]
      tauto

theorem insertB_pairwise {α : Type} (le : α → α → Bool)
    (htot : ∀ p q, le p q || le q p = true)
    (htr : ∀ p q r, le p q = true → le q r = true → le p r = true)
    (x : α) : ∀ l, l.Pairwise (fun p q => le p q = true) →
      (insertB le x l).Pairwise (fun p q => le p q = true) := by
  intro l
  induction l with
  | nil =>
    intro _
    simp [insertB]
  | cons y ys ih =>
    intro hp
    rcases List.pairwise_cons.mp hp with ⟨hy, hys⟩
    unfold insertB
    by_cases h : le x y = true
    · rw [if_pos h]
      apply List.Pairwise.cons
      · intro z hz
        rcases List.mem_cons.mp hz with rfl | hz
        · exact h
        · exact htr x y z h (hy z hz)
      · exact hp
    · rw [if_neg h]
      apply List.Pairwise.cons
      · intro z hz
        rcases (mem_insertB le x ys z).mp hz with hzx | hz
        · rw [hzx]
          have htot' := htot x y
          cases hxy : le x y with
          | true => exact absurd hxy h
          | false =>
            rw [hxy] at htot'
            simpa using htot'
        · exact hy z hz
      · exact ih hys

theorem sortBy_pairwise {α : Type} (le : α → α → Bool)
    (htot : ∀ p q, le p q || le q p = true)
    (htr : ∀ p q r, le p q = true → le q r = true → le p r = true) :
    ∀ l : List α, (sortBy le l).Pairwise (fun p q => le p q = true) := by
  intro l
  induction l with
  | nil => simp [sortBy]
  | cons x xs ih =>
    unfold sortBy
    exact insertB_pairwise le htot htr x _ ih

theorem rgeB_total : ∀ r s, rgeB r s || rgeB s r = true := by
  intro r s
  cases r <;> cases s <;> simp [rgeB]
  exact le_total _ _

theorem rgeB_trans : ∀ p q r, rgeB p q = true → rgeB q r = true → rgeB p r = true := by
  intro p q r h1 h2
  cases p <;> cases q <;> cases r <;> simp_all [rgeB]
  exact le_trans h2 h1

/-- Counterexample to C8: on a one-row grid no lag has a defined
correlation; the recorded score is the `-inf` sentinel (`round(-np.inf, 4)`
is `-inf`), which is not a NaN as the claim states. -/
theorem c8_counterexample :
    lag_correlation [("a", [some 1]), ("b", [some 2])] 0 =
      .ok [⟨"a~b", none, RScore.ninf⟩] ∧
    RScore.ninf ≠ RScore.nan := by
  constructor
  · with_unfolding_all decide
  · decide

/-- C8 as amended: a pair for which no lag in `[-L, L]` yields a defined
correlation records an absent lag together with the score `-inf` (not NaN),
and whenever the final sort succeeds, no `-inf` row ever precedes a row
with a defined (rational) correlation in its output. -/
theorem c8_undefined_pair_record :
    (∀ (a b : Col) (L : ℕ),
      (∀ lag ∈ lagList L, pearson (lagPairs a b lag) = Corr.nan) →
      bestForPair a b L = (none, Score.ninf) ∧
      roundScore (bestForPair a b L).2 = RScore.ninf) ∧
    (∀ (cols : List (String × Col)) (L : ℕ) (out : List LagRow),
      lag_correlation cols L = .ok out →
      out.Pairwise
        (fun r s => r.corr = RScore.ninf → ∀ x : ℚ, s.corr ≠ RScore.q x)) := by
  constructor
  · intro a b L h
    have hb : bestForPair a b L = (none, Score.ninf) :=
      foldl_bestStep_all_nan a b (lagList L) (none, .ninf) h
    refine ⟨hb, ?_⟩
    rw [hb]
    rfl

  · intro cols L out hout
    unfold lag_correlation sortRows at hout
    rcases eq_or_ne (lagRows cols L) [] with hrows | hrows
    · rw [if_pos hrows] at hout
      cases hout
    rw [if_neg hrows] at hout
    injection hout with hout'
    subst hout'
    rw [List.pairwise_append]
    refine ⟨?_, ?_, ?_⟩
    · have hs := sortBy_pairwise (fun (r s : LagRow) => rgeB r.corr s.corr)
        (fun p q => rgeB_total p.corr q.corr)
        (fun p q r h1 h2 => rgeB_trans p.corr q.corr r.corr h1 h2)
        ((lagRows cols L).filter (fun r => !(decide (r.corr = RScore.nan))))
      refine hs.imp ?_
      intro r s hle
      intro hninf x hq
      rw [hninf, hq] at hle
      simp [rgeB] at hle
    · apply List.pairwise_of_forall_mem_list
      intro r hr s _
      have := (List.mem_filter.mp hr).2
      intro hninf
      rw [hninf] at this
      cases this
    · intro r _ s hs
      intro _ x hq
      have := (List.mem_filter.mp hs).2
      rw [hq] at this
      cases this

/-- Witness for C8 at the one-row grid: the per-pair search ends with an
absent lag and the `-inf` sentinel. -/
theorem c8_undefined_pair_record_witness :
    bestForPair [some 1] [some 2] 0 = (none, Score.ninf) :=
  (c8_undefined_pair_record.1 [some 1] [some 2] 0 (by with_unfolding_all decide)).1

/-- `notAbove x c₀ d₀` : the correlation `x` is undefined or does not
strictly exceed `c₀/√d₀`. -/
def notAbove (x : Corr) (c₀ d₀ : ℚ) : Bool :=
  match x with
  | .nan => true
  | .val c d => !(cddGt c d c₀ d₀)

/-- `strictBelow x c₀ d₀` : the correlation `x` is undefined or strictly
below `c₀/√d₀`. -/
def strictBelow (x : Corr) (c₀ d₀ : ℚ) : Bool :=
  match x with
  | .nan => true
  | .val c d => cddGt c₀ d₀ c d

/-- Intermediate fold states compatible with a maximum at score `c₀/√d₀`:
still the initial state, or a recorded score strictly below. -/
def goodSt (c₀ d₀ : ℚ) (st : Option ℤ × Score) : Prop :=
  st = (none, Score.ninf) ∨
    ∃ lg c d, st = (some lg, Score.val c d) ∧ cddGt c₀ d₀ c d = true

theorem mem_lagList (L : ℕ) (lag : ℤ) :
    lag ∈ lagList L ↔ -(L : ℤ) ≤ lag ∧ lag ≤ (L : ℤ) := by
  unfold lagList
  rw [List.mem_map]
  constructor
  · rintro ⟨k, hk, rfl⟩
    have := List.mem_range.mp hk
    omega
  · rintro ⟨h1, h2⟩
    exact ⟨(lag + L).toNat, List.mem_range.mpr (by omega), by omega⟩

theorem lagList_length (L : ℕ) : (lagList L).length = 2 * L + 1 := by
  simp [lagList]

theorem foldA (a b : Col) (c₀ d₀ : ℚ) :
    ∀ (lags : List ℤ) (st : Option ℤ × Score),
      (∀ lag ∈ lags, strictBelow (pearson (lagPairs a b lag)) c₀ d₀ = true) →
      goodSt c₀ d₀ st → goodSt c₀ d₀ (lags.foldl (bestStep a b) st) := by
  intro lags
  induction lags with
  | nil => intro st _ hst; exact hst
  | cons x xs ih =>
    intro st h hst
    rw [List.foldl_cons]
    apply ih _ (fun lag hl => h lag (List.mem_cons_of_mem _ hl))
    have hx := h x (List.mem_cons_self _ _)
    cases hp : pearson (lagPairs a b x) with
    | nan =>
      rw [show bestStep a b st x = st from by unfold bestStep; rw [hp]]
      exact hst
    | val c d =>
      rw [hp] at hx
      unfold strictBelow at hx
      rw [show bestStep a b st x =
          (if scoreLt st.2 c d = true then (some x, Score.val c d) else st) from by
        unfold bestStep; rw [hp]]
      by_cases hlt : scoreLt st.2 c d = true
      · rw [if_pos hlt]
        exact Or.inr ⟨x, c, d, rfl, hx⟩
      · rw [if_neg hlt]
        exact hst

theorem foldB (a b : Col) (c₀ d₀ : ℚ) (lag₀ : ℤ) :
    ∀ (lags : List ℤ),
      (∀ lag ∈ lags, notAbove (pearson (lagPairs a b lag)) c₀ d₀ = true) →
      lags.foldl (bestStep a b) (some lag₀, Score.val c₀ d₀) =
        (some lag₀, Score.val c₀ d₀) := by
  intro lags
  induction lags with
  | nil => intro _; rfl
  | cons x xs ih =>
    intro h
    rw [List.foldl_cons]
    have hx := h x (List.mem_cons_self _ _)
    have hkeep : bestStep a b (some lag₀, Score.val c₀ d₀) x =
        (some lag₀, Score.val c₀ d₀) := by
      cases hp : pearson (lagPairs a b x) with
      | nan =>
        unfold bestStep
        rw [hp]
      | val c d =>
        rw [hp] at hx
        unfold notAbove at hx
        rw [show bestStep a b (some lag₀, Score.val c₀ d₀) x =
            (if cddGt c d c₀ d₀ = true then (some x, Score.val c d)
             else (some lag₀, Score.val c₀ d₀)) from by
          unfold bestStep; rw [hp]; rfl]
        rw [if_neg (by simpa using hx)]
    rw [hkeep]
    exact ih (fun lag hl => h lag (List.mem_cons_of_mem _ hl))

theorem stepAt (a b : Col) (c₀ d₀ : ℚ) (lag₀ : ℤ) (st : Option ℤ × Score)
    (hst : goodSt c₀ d₀ st)
    (hp : pearson (lagPairs a b lag₀) = Corr.val c₀ d₀) :
    bestStep a b st lag₀ = (some lag₀, Score.val c₀ d₀) := by
  rcases hst with rfl | ⟨lg, c, d, rfl, hcd⟩
  · unfold bestStep
    rw [hp]
    rfl
  · rw [show bestStep a b (some lg, Score.val c d) lag₀ =
        (if cddGt c₀ d₀ c d = true then (some lag₀, Score.val c₀ d₀)
         else (some lg, Score.val c d)) from by
      unfold bestStep; rw [hp]; rfl]
    rw [if_pos hcd]

theorem mem_take_lagList (L m₀ : ℕ) :
    ∀ lag ∈ (lagList L).take m₀, lag ∈ lagList L ∧ lag < (m₀ : ℤ) - (L : ℤ) := by
  intro lag hl
  refine ⟨List.mem_of_mem_take hl, ?_⟩
  unfold lagList at hl
  rw [← List.map_take, List.take_range] at hl
  rcases List.mem_map.mp hl with ⟨k, hk, rfl⟩
  have := List.mem_range.mp hk
  omega

/-- C10: the per-pair search replaces the current best only on a strictly
greater correlation, so when a defined correlation at `lag₀` is not
exceeded by any lag and strictly exceeds every defined correlation at
earlier lags, the search records exactly `lag₀` with that score — among
tied maximal lags, the first one enumerated (the smallest) wins. -/
theorem c10_first_max_lag (a b : Col) (L : ℕ) (lag₀ : ℤ) (c₀ d₀ : ℚ)
    (hmem : lag₀ ∈ lagList L)
    (hp : pearson (lagPairs a b lag₀) = Corr.val c₀ d₀)
    (hna : ∀ lag ∈ lagList L, notAbove (pearson (lagPairs a b lag)) c₀ d₀ = true)
    (hsb : ∀ lag ∈ lagList L, lag < lag₀ →
      strictBelow (pearson (lagPairs a b lag)) c₀ d₀ = true) :
    bestForPair a b L = (some lag₀, Score.val c₀ d₀) := by
  have hrange := (mem_lagList L lag₀).mp hmem
  have hm₀lt : (lag₀ + (L : ℤ)).toNat < (lagList L).length := by
    rw [lagList_length]
    omega
  have hget : (lagList L)[(lag₀ + (L : ℤ)).toNat] = lag₀ := by
    unfold lagList
    rw [List.getElem_map, List.getElem_range]
    omega
  have hsplit : lagList L =
      (lagList L).take ((lag₀ + (L : ℤ)).toNat) ++
        lag₀ :: (lagList L).drop ((lag₀ + (L : ℤ)).toNat + 1) := by
    conv_lhs => rw [← List.take_append_drop ((lag₀ + (L : ℤ)).toNat) (lagList L)]
    rw [List.drop_eq_getElem_cons hm₀lt, hget]
  unfold bestForPair
  rw [hsplit, List.foldl_append, List.foldl_cons]
  have h1 : goodSt c₀ d₀
      (((lagList L).take ((lag₀ + (L : ℤ)).toNat)).foldl (bestStep a b) (none, .ninf)) := by
    apply foldA
    · intro lag hl
      rcases mem_take_lagList L _ lag hl with ⟨hmem', hlt⟩
      exact hsb lag hmem' (by omega)
    · exact Or.inl rfl
  rw [stepAt a b c₀ d₀ lag₀ _ h1 hp]
  apply foldB
  intro lag hl
  exact hna lag (List.mem_of_mem_drop hl)

/-- Witness for C10: with identical 2-periodic columns the correlation is
1 at lags -2, 0 and 2 inside `[-2, 2]`; the recorded best lag is the first
one enumerated, -2. -/
theorem c10_first_max_lag_witness :
    bestForPair [some 1, some 2, some 1, some 2, some 1, some 2]
      [some 1, some 2, some 1, some 2, some 1, some 2] 2 =
      (some (-2), Score.val 4 16) := by
  apply c10_first_max_lag
  · with_unfolding_all decide
  · with_unfolding_all decide
  · with_unfolding_all decide
  · with_unfolding_all decide

/-- Seven identical 3-hour sensor columns: every pair records rounded
correlation 1.0, so all 21 result rows tie. -/
def grid7 : List (String × Col) :=
  [("s0", [some 1, some 2, some 3]), ("s1", [some 1, some 2, some 3]),
   ("s2", [some 1, some 2, some 3]), ("s3", [some 1, some 2, some 3]),
   ("s4", [some 1, some 2, some 3]), ("s5", [some 1, some 2, some 3]),
   ("s6", [some 1, some 2, some 3])]

/-- Evaluation of the lag correlator at the C2 failing input: the sort
succeeds and yields 21 pair rows, every one with rounded correlation 1.0 —
the tie situation in which `sort_values(kind="quicksort")` gives no
stable-order guarantee. -/
theorem c2_tied_rounded_scores :
    (lag_correlation grid7 1).map (fun out => out.map (fun r => r.corr)) =
      .ok (List.replicate 21 (RScore.q 1)) ∧
    (lag_correlation grid7 1).map (fun out => out.length) = .ok 21 := by
  constructor
  · with_unfolding_all decide
  · with_unfolding_all decide
